import Mathlib

/-!
Verification development for the hidden-pixel-vault repository: a PNG
steganography tool built from a PNG chunk codec and a crash-safe atomic
file transaction (src/atomic_file.rs, src/commands.rs).

Bytes are modelled as natural numbers (kept below 256 where it matters),
byte buffers as lists, and the filesystem as a partial map from path
strings to byte lists.  Fallible Rust functions returning
`Result<T, Box<dyn Error>>` are modelled as `Except String`.
-/

set_option maxHeartbeats 1000000
set_option maxRecDepth 100000

/-- Decidable equality for `Except`, used to evaluate the model on
concrete inputs. -/
instance {ε α : Type} [DecidableEq ε] [DecidableEq α] : DecidableEq (Except ε α) := by
  intro a b
  cases a <;> cases b
  case error.error x y => exact decidable_of_iff (x = y) (by simp)
  case ok.ok x y => exact decidable_of_iff (x = y) (by simp)
  all_goals exact isFalse (by intro h; cases h)

namespace HiddenPixelVault

/-- Modelled from the spec: the ASCII-letter test used for chunk-type bytes
(spec 3: each byte must be an ASCII letter, A-Z or a-z). -/
def isAlphaByte (b : Nat) : Bool :=
  (65 ≤ b && b ≤ 90) || (97 ≤ b && b ≤ 122)

/-- Big-endian 4-byte encoding of a 32-bit value (spec 6: lengths and
checksums are 4-byte big-endian fields). -/
def be32 (n : Nat) : List Nat :=
  [n / 2 ^ 24 % 256, n / 2 ^ 16 % 256, n / 2 ^ 8 % 256, n % 256]

/-- Reads a big-endian 4-byte value from the front of a byte list. -/
def readBE32 : List Nat → Option (Nat × List Nat)
  | a :: b :: c :: d :: rest => some (((a * 256 + b) * 256 + c) * 256 + d, rest)
  | _ => none

/-- One bit-level round of the reflected CRC-32 computation. -/
def crc32Round (c : Nat) : Nat :=
  if c % 2 = 1 then Nat.xor (c / 2) 0xEDB88320 else c / 2

/-- Feeds one byte into the CRC-32 state. -/
def crc32Byte (c : Nat) (b : Nat) : Nat :=
  (List.range 8).foldl (fun acc _ => crc32Round acc) (Nat.xor c (b % 256))

/-- Modelled from the spec: CRC32 over the standard IEEE polynomial
(spec 6), computed over chunk type bytes followed by chunk data. -/
def crc32 (data : List Nat) : Nat :=
  Nat.xor (data.foldl crc32Byte 0xFFFFFFFF) 0xFFFFFFFF

/-- A UTF-8 continuation byte. -/
def isCont (b : Nat) : Bool := 128 ≤ b && b ≤ 191

/-- Modelled from the spec: UTF-8 validity of a byte sequence, used by the
chunk accessor that interprets data as text (spec 4.2: `data_as_string`
is defined only when data is valid UTF-8). -/
def isValidUtf8 : List Nat → Bool
  | [] => true
  | b :: rest =>
    if b ≤ 0x7F then isValidUtf8 rest
    else if 0xC2 ≤ b && b ≤ 0xDF then
      match rest with
      | b1 :: r => isCont b1 && isValidUtf8 r
      | [] => false
    else if b = 0xE0 then
      match rest with
      | b1 :: b2 :: r => (0xA0 ≤ b1 && b1 ≤ 0xBF) && isCont b2 && isValidUtf8 r
      | _ => false
    else if (0xE1 ≤ b && b ≤ 0xEC) || b = 0xEE || b = 0xEF then
      match rest with
      | b1 :: b2 :: r => isCont b1 && isCont b2 && isValidUtf8 r
      | _ => false
    else if b = 0xED then
      match rest with
      | b1 :: b2 :: r => (0x80 ≤ b1 && b1 ≤ 0x9F) && isCont b2 && isValidUtf8 r
      | _ => false
    else if b = 0xF0 then
      match rest with
      | b1 :: b2 :: b3 :: r =>
        (0x90 ≤ b1 && b1 ≤ 0xBF) && isCont b2 && isCont b3 && isValidUtf8 r
      | _ => false
    else if 0xF1 ≤ b && b ≤ 0xF3 then
      match rest with
      | b1 :: b2 :: b3 :: r => isCont b1 && isCont b2 && isCont b3 && isValidUtf8 r
      | _ => false
    else if b = 0xF4 then
      match rest with
      | b1 :: b2 :: b3 :: r =>
        (0x80 ≤ b1 && b1 ≤ 0x8F) && isCont b2 && isCont b3 && isValidUtf8 r
      | _ => false
    else false

/-- The byte sequence of a string (tags handled by the commands are ASCII,
where Rust byte strings and character codes agree). -/
def strBytes (s : String) : List Nat := s.toList.map Char.toNat

/-- Modelled from the spec: chunk_type.rs is not under src/.  Per spec 3
and 4.1 a ChunkTypeCode is exactly 4 raw bytes, each an ASCII letter. -/
structure ChunkType where
  bytes : List Nat
deriving DecidableEq

/-- Modelled from the spec: parsing a chunk type from a string fails when
the tag is not 4 ASCII-letter bytes (spec 4.1 parse, plus the length
requirement of spec 3: exactly 4 raw bytes). -/
def ChunkType.fromStr (s : String) : Except String ChunkType :=
  if s.toList.length ≠ 4 then .error "chunk type must be 4 bytes"
  else
    let bs := strBytes s
    if bs.all isAlphaByte then .ok ⟨bs⟩
    else .error "non-alphabetic byte"

/-- Modelled from the spec: chunk.rs is not under src/.  Per spec 3 and 4.2
a chunk is a type code plus a data byte sequence; its length and checksum
fields are derived (length = data.len(), checksum = CRC32(type ++ data),
always recomputed fresh). -/
structure Chunk where
  chunkType : ChunkType
  data : List Nat
deriving DecidableEq

/-- Modelled from the spec: `Chunk::new(type, data)` computes length and
checksum; always succeeds (spec 4.2). -/
def Chunk.new (t : ChunkType) (d : List Nat) : Chunk := ⟨t, d⟩

/-- Modelled from the spec: `serialize` emits
length (4 BE) ++ type (4) ++ data ++ checksum (4 BE) (spec 4.2). -/
def Chunk.serialize (c : Chunk) : List Nat :=
  be32 c.data.length ++ c.chunkType.bytes ++ c.data ++
    be32 (crc32 (c.chunkType.bytes ++ c.data))

/-- Well-formedness of an in-memory chunk: its type is 4 alphabetic bytes
and its data fits the 4-byte length field.  Every chunk produced by a
successful parse and every chunk built by `encode` satisfies this. -/
def Chunk.WF (c : Chunk) : Prop :=
  c.chunkType.bytes.length = 4 ∧ c.chunkType.bytes.all isAlphaByte = true ∧
    c.data.length < 2 ^ 32

/-- Modelled from the spec: `Chunk::parse` reads a 4-byte BE length, 4-byte
type, `length` data bytes and a 4-byte BE checksum; it fails on a short
buffer, a non-alphabetic type, or a checksum mismatch (spec 4.2).
Returns the parsed chunk together with the unconsumed rest. -/
def parseChunkStep (bytes : List Nat) : Except String (Chunk × List Nat) :=
  match readBE32 bytes with
  | none => .error "chunk truncated"
  | some (len, r1) =>
    let ty := r1.take 4
    let r2 := r1.drop 4
    if ty.length = 4 then
      if ty.all isAlphaByte then
        let data := r2.take len
        let r3 := r2.drop len
        if data.length = len then
          match readBE32 r3 with
          | none => .error "chunk truncated"
          | some (crc, r4) =>
            if crc = crc32 (ty ++ data) then .ok (⟨⟨ty⟩, data⟩, r4)
            else .error "checksum mismatch"
        else .error "chunk truncated"
      else .error "non-alphabetic byte"
    else .error "chunk truncated"

/-- The fixed 8-byte PNG signature (spec 6). -/
def pngSignature : List Nat := [137, 80, 78, 71, 13, 10, 26, 10]

/-- Modelled from the spec: png.rs is not under src/.  Per spec 3 a
PngContainer is the fixed signature plus an ordered sequence of chunks. -/
structure Png where
  chunks : List Chunk
deriving DecidableEq

/-- Modelled from the spec: repeatedly parse chunks until the byte stream
is exhausted; any chunk parse failure aborts the whole parse (spec 4.3).
The fuel argument bounds the loop; callers pass the byte count, which
suffices because every chunk consumes at least twelve bytes. -/
def parseChunks : Nat → List Nat → Except String (List Chunk)
  | _, [] => .ok []
  | 0, _ :: _ => .error "chunk stream too long"
  | fuel + 1, b :: bs =>
    match parseChunkStep (b :: bs) with
    | .error e => .error e
    | .ok (c, rest) =>
      match parseChunks fuel rest with
      | .error e => .error e
      | .ok cs => .ok (c :: cs)

/-- Modelled from the spec: `PngContainer::parse` validates the signature
then parses chunks until exhausted (spec 4.3). -/
def Png.parse (bytes : List Nat) : Except String Png :=
  if bytes.take 8 = pngSignature then
    (parseChunks bytes.length (bytes.drop 8)).map Png.mk
  else .error "invalid PNG signature"

/-- Modelled from the spec: `serialize` is signature ++ each chunk's
serialization, in order (spec 4.3); commands call it `as_bytes`. -/
def Png.asBytes (png : Png) : List Nat :=
  pngSignature ++ (png.chunks.map Chunk.serialize).flatten

/-- Modelled from the spec: `find_by_type` / `chunk_by_type` returns the
first chunk whose type matches the tag (spec 4.3). -/
def Png.chunkByType (png : Png) (tag : String) : Option Chunk :=
  png.chunks.find? (fun c => c.chunkType.bytes == strBytes tag)

/-- Removes the first list element satisfying the predicate, returning it
together with the remaining elements in order. -/
def removeFirst (p : Chunk → Bool) : List Chunk → Option (Chunk × List Chunk)
  | [] => none
  | c :: cs =>
    if p c then some (c, cs)
    else (removeFirst p cs).map (fun x => (x.1, c :: x.2))

/-- Modelled from the spec: `remove_by_type` removes and returns the first
match, preserving the relative order of the rest; absent tag is a
NotFoundError (spec 4.3). -/
def Png.removeChunk (png : Png) (tag : String) : Except String (Chunk × Png) :=
  match removeFirst (fun c => c.chunkType.bytes == strBytes tag) png.chunks with
  | none => .error ("chunk not found: " ++ tag)
  | some (c, rest) => .ok (c, ⟨rest⟩)

/-- Modelled from the spec: `append` inserts at the end of the sequence
(spec 4.3). -/
def Png.appendChunk (png : Png) (c : Chunk) : Png := ⟨png.chunks ++ [c]⟩

/-! ## Filesystem model

The single-threaded, synchronous filesystem of src/atomic_file.rs is a
partial map from path strings to byte lists.  `fs::write` and
`fs::remove_file` update the map; `fs::copy` reads the source and writes
the destination; `fs::rename` moves an entry atomically. -/

/-- The filesystem: a partial map from paths to file contents. -/
def FS := String → Option (List Nat)

/-- Models `fs::write`: creates or truncates the file at `p`. -/
def FS.write (fs : FS) (p : String) (d : List Nat) : FS :=
  fun q => if q = p then some d else fs q

/-- Models `fs::remove_file`. -/
def FS.removeFile (fs : FS) (p : String) : FS :=
  fun q => if q = p then none else fs q

/-- Models `Path::exists`. -/
def FS.pathExists (fs : FS) (p : String) : Bool :=
  (fs p).isSome

/-- Models `fs::rename src dst`: fails when the source is absent,
otherwise removes the source entry and overwrites the destination in one
indivisible step (src/atomic_file.rs commit_atomic_write). -/
def FS.rename (fs : FS) (src dst : String) : Option FS :=
  match fs src with
  | none => none
  | some d => some ((fs.removeFile src).write dst d)

/-! ## Path derivation (src/atomic_file.rs generate_temp_path /
generate_backup_path)

Rust `Path::extension` returns the portion of the file name after its
final dot, provided the file name does not begin with that dot;
`PathBuf::set_extension` truncates the current extension and appends the
new one.  Both are modelled on character lists; the file name is the
part of the path after the last slash. -/

/-- The reversed file-name portion of a path (characters after the last
slash, reversed). -/
def fileRev (p : List Char) : List Char :=
  p.reverse.takeWhile (fun c => c != '/')

/-- The reversed directory portion of a path (everything up to and
including the last slash, reversed). -/
def dirRev (p : List Char) : List Char :=
  p.reverse.dropWhile (fun c => c != '/')

/-- Models Rust `Path::extension`: the portion of the file name after the
final dot; none when there is no dot, or when the only dot begins the
file name. -/
def pathExtension (p : List Char) : Option (List Char) :=
  match (fileRev p).dropWhile (fun c => c != '.') with
  | [] => none
  | _ :: stemRev =>
    if stemRev = [] then none
    else some ((fileRev p).takeWhile (fun c => c != '.')).reverse

/-- Models Rust `PathBuf::set_extension`: truncates the current extension
(when present) and appends a dot plus the new extension. -/
def setExtension (p : List Char) (newExt : List Char) : List Char :=
  match pathExtension p with
  | none => p ++ ('.' :: newExt)
  | some _ => ((fileRev p).dropWhile (fun c => c != '.') ++ dirRev p).reverse ++ newExt

/-- Models generate_temp_path: file.png becomes file.png.tmp by replacing
the extension `png` with `png.tmp`; a target without an extension is an
error (src/atomic_file.rs lines 33-43). -/
def generate_temp_path (target : String) : Except String String :=
  match pathExtension target.toList with
  | none => .error "File must have an extension"
  | some e => .ok (String.mk (setExtension target.toList (e ++ ".tmp".toList)))

/-- Models generate_backup_path: file.png becomes file.png.backup
(src/atomic_file.rs lines 46-56). -/
def generate_backup_path (target : String) : Except String String :=
  match pathExtension target.toList with
  | none => .error "File must have an extension"
  | some e => .ok (String.mk (setExtension target.toList (e ++ ".backup".toList)))

/-! ## The atomic file handler (src/atomic_file.rs) -/

/-- The transaction object: target path plus derived temp and backup
paths (src/atomic_file.rs AtomicFileHandler). -/
structure AtomicFileHandler where
  target_path : String
  temp_path : String
  backup_path : String
deriving DecidableEq

/-- Models AtomicFileHandler::new: validates that the target exists, then
derives the temp and backup paths (src/atomic_file.rs lines 13-30). -/
def AtomicFileHandler.new (path : String) (fs : FS) : Except String AtomicFileHandler :=
  if !fs.pathExists path then .error ("File does not exist: " ++ path)
  else
    match generate_temp_path path, generate_backup_path path with
    | .ok t, .ok b => .ok ⟨path, t, b⟩
    | .error e, _ => .error e
    | _, .error e => .error e

/-- A single injected I/O failure inside the transaction, used to state
the spec's rollback guarantee (spec 4.5 / 8.8: any single injected
failure).  `noFault` is the failure-free run. -/
inductive Fault
  | noFault
  | atBackup
  | atRead
  | atStage
  | atMutate
  | atWrite
  | atCommit
deriving DecidableEq

/-- Models AtomicFileHandler::rollback (and the identical
rollback_silent): delete the temp file if present, then copy the backup
over the target if a backup exists (src/atomic_file.rs lines 133-147).
Under a single injected fault elsewhere in the transaction, the rollback
I/O itself succeeds, so it is modelled as total. -/
def rollback (fs : FS) (h : AtomicFileHandler) : FS :=
  let fs1 := if fs.pathExists h.temp_path then fs.removeFile h.temp_path else fs
  match fs1 h.backup_path with
  | some d => fs1.write h.target_path d
  | none => fs1

/-- Models AtomicFileHandler::atomic_modify (and the identical
atomic_modify_silent, which differs only in console output): copy target
to backup, read the target, stage its content in the temp file, run the
mutation, write the result to the temp file, and commit by renaming temp
onto target; the mutate, staged-write and commit steps roll back on
failure, while a failure during begin propagates without rollback
(src/atomic_file.rs lines 230-293).  The `fault` argument injects at
most one I/O failure; a failing call performs no filesystem change. -/
def atomic_modify (fs : FS) (h : AtomicFileHandler)
    (modifyFn : List Nat → Except String (List Nat)) (fault : Fault) :
    Except String Unit × FS :=
  if fault = .atBackup then (.error "Failed to create backup", fs) else
  match fs h.target_path with
  | none => (.error "Failed to create backup", fs)
  | some orig =>
    let fs1 := fs.write h.backup_path orig
    if fault = .atRead then (.error "Failed to read file", fs1) else
    match fs1 h.target_path with
    | none => (.error "Failed to read file", fs1)
    | some content =>
      if fault = .atStage then (.error "Failed to create temporary file", fs1) else
      let fs2 := fs1.write h.temp_path content
      match (if fault = .atMutate then .error "injected modify failure"
             else modifyFn content : Except String (List Nat)) with
      | .error e => (.error e, rollback fs2 h)
      | .ok modified =>
        if fault = .atWrite then
          (.error "Failed to write to temporary file", rollback fs2 h)
        else
          let fs3 := fs2.write h.temp_path modified
          if fault = .atCommit then (.error "Failed to commit changes", rollback fs3 h)
          else
            match fs3.rename h.temp_path h.target_path with
            | none => (.error "Failed to commit changes", rollback fs3 h)
            | some fs4 => (.ok (), fs4)

/-! ## Commands (src/commands.rs)

Console output is outside the model; where the source prints distinct
non-fatal outcomes and returns `Ok(())`, the model returns the outcome
as a value.  Error values carry the message of the corresponding
`format!` string, without its console decorations. -/

/-- The four critical chunk names protected by the mutation policy
(src/commands.rs lines 64 and 130). -/
def criticalChunks : List String := ["IHDR", "PLTE", "IDAT", "IEND"]

/-- The encode error for a critical chunk name (src/commands.rs 64-69). -/
def criticalMsg (tag : String) : String :=
  "Cannot use critical PNG chunk name " ++ tag ++ ". Please use a different chunk name."

/-- The encode error for a 4-character tag whose third character is not
uppercase (src/commands.rs 71-82). -/
def shapeMsg (tag : String) : String :=
  "Invalid chunk type " ++ tag ++ ". The 3rd character must be uppercase."

/-- The encode error for a duplicate tag (src/commands.rs 96-102). -/
def dupMsg (tag : String) : String :=
  "Chunk " ++ tag ++ " already exists. Cannot add duplicate message."

/-- The UTF-8 encoding size of one character: 1 byte up to U+007F, 2 up
to U+07FF, 3 up to U+FFFF, 4 beyond. -/
def charUtf8Size (c : Char) : Nat :=
  if c.toNat ≤ 0x7F then 1
  else if c.toNat ≤ 0x7FF then 2
  else if c.toNat ≤ 0xFFFF then 3
  else 4

/-- Models Rust `str::len`: the UTF-8 byte length of a string. -/
def utf8Len (s : String) : Nat :=
  (s.toList.map charUtf8Size).sum

/-- The three possible outcomes of encode's tag-shape pre-check: let the
tag through, reject it with the shape error, or abort the process by an
out-of-bounds character index (a Rust panic). -/
inductive ShapeCheck
  | proceed
  | reject
  | aborts
deriving DecidableEq

/-- The observable stand-in for a Rust panic (process abort): the source
indexes a character vector out of bounds and aborts before building any
handler or touching any file; the model returns this distinguished
error value with the filesystem unchanged, which is all the difference
the filesystem-level claims can observe. -/
def panicMsg : String :=
  "panicked: index out of bounds in chunk type characters"

/-- Models the tag-shape pre-check of encode (src/commands.rs 71-82).
The source guard is chunk_type.len() == 4, which is the UTF-8 BYTE
length of the tag; inside the guard the source collects the tag's
characters, indexes chars[2] for the uppercase test and, when building
the rejection message, chars[3] as well; a 4-byte tag with fewer
characters than those indexes require makes the indexing panic before
any file is touched, modelled by `aborts`.  The uppercase test models
the source's char::is_uppercase, with which it agrees on ASCII
characters; every theorem below that reaches the uppercase test
constrains the tag so that its third character is ASCII.  A tag of any
other byte length skips the check entirely. -/
def tagShapeCheck (tag : String) : ShapeCheck :=
  if utf8Len tag == 4 then
    match tag.toList[2]? with
    | none => .aborts
    | some c2 =>
      if c2.isUpper then .proceed
      else
        match tag.toList[3]? with
        | none => .aborts
        | some _ => .reject
  else .proceed

/-- The mutation closure of encode: parse the PNG, reject duplicates,
remove the IEND chunk, validate the tag, append the payload chunk and
re-append IEND (src/commands.rs 91-121). -/
def encodeMutate (tag : String) (message : List Nat) (content : List Nat) :
    Except String (List Nat) :=
  match Png.parse content with
  | .error e => .error ("Failed to parse PNG: " ++ e)
  | .ok png =>
    if (png.chunkByType tag).isSome then .error (dupMsg tag)
    else
      match png.removeChunk "IEND" with
      | .error e => .error ("Failed to remove IEND chunk: " ++ e)
      | .ok (endChunk, png1) =>
        match ChunkType.fromStr tag with
        | .error e => .error ("Invalid chunk type: " ++ e)
        | .ok ct =>
          .ok (((png1.appendChunk (Chunk.new ct message)).appendChunk endChunk).asBytes)

/-- Models commands::encode: critical-name check, tag-shape pre-check
(which can also abort by a panic, see `tagShapeCheck`), handler
construction, then the atomic transaction around `encodeMutate`
(src/commands.rs 62-122).  The message is the payload byte string. -/
def encode (path tag : String) (message : List Nat) (fs : FS) :
    Except String Unit × FS :=
  if criticalChunks.contains tag then (.error (criticalMsg tag), fs)
  else
    match tagShapeCheck tag with
    | .proceed =>
      match AtomicFileHandler.new path fs with
      | .error e => (.error e, fs)
      | .ok h => atomic_modify fs h (encodeMutate tag message) .noFault
    | .reject => (.error (shapeMsg tag), fs)
    | .aborts => (.error panicMsg, fs)

/-- The observable outcome of a successful decode: the payload bytes when
they are valid UTF-8, or the printed binary-data notice otherwise. -/
inductive DecodeOutcome
  | message (data : List Nat)
  | notText
deriving DecidableEq

/-- Models commands::decode: read and parse the target, look up the tag;
an absent tag is an error, a present tag yields its text when the data
is valid UTF-8 and the non-fatal binary-data outcome otherwise
(src/commands.rs 31-60).  Decode never writes to the filesystem. -/
def decode (path tag : String) (fs : FS) : Except String DecodeOutcome :=
  match AtomicFileHandler.new path fs with
  | .error e => .error e
  | .ok h =>
    match fs h.target_path with
    | none => .error ("Failed to read file " ++ path)
    | some buf =>
      match Png.parse buf with
      | .error e => .error ("Failed to parse PNG: " ++ e)
      | .ok png =>
        match png.chunkByType tag with
        | some c => if isValidUtf8 c.data then .ok (.message c.data) else .ok .notText
        | none => .error ("Chunk type " ++ tag ++ " not found")

/-- The observable outcome of a successful remove: the chunk was removed,
or the critical-name no-op, or the non-fatal not-found outcome. -/
inductive RemoveOutcome
  | removed
  | criticalNoop
  | notFound
deriving DecidableEq

/-- The mutation closure of remove: parse the PNG and remove the chunk
(src/commands.rs 153-162). -/
def removeMutate (tag : String) (content : List Nat) : Except String (List Nat) :=
  match Png.parse content with
  | .error e => .error ("Failed to parse PNG: " ++ e)
  | .ok png =>
    match png.removeChunk tag with
    | .error e => .error ("Failed to remove chunk: " ++ e)
    | .ok x => .ok x.2.asBytes

/-- Models commands::remove: a critical name completes as a no-op before
any handler is even built; an absent tag completes as the non-fatal
not-found outcome after a read-only parse; otherwise the chunk is
removed inside the silent atomic transaction (src/commands.rs 124-163). -/
def remove (path tag : String) (fs : FS) : Except String RemoveOutcome × FS :=
  if criticalChunks.contains tag then (.ok .criticalNoop, fs)
  else
    match AtomicFileHandler.new path fs with
    | .error e => (.error e, fs)
    | .ok h =>
      match fs h.target_path with
      | none => (.error ("Failed to read file " ++ path), fs)
      | some buf =>
        match Png.parse buf with
        | .error e => (.error ("Failed to parse PNG: " ++ e), fs)
        | .ok png =>
          if (png.chunkByType tag).isNone then (.ok .notFound, fs)
          else
            match atomic_modify fs h (removeMutate tag) .noFault with
            | (.ok _, fs2) => (.ok .removed, fs2)
            | (.error e, fs2) => (.error e, fs2)

/-- The restore error when the explicitly named backup file is absent
(src/commands.rs 174-176). -/
def backupMissingMsg (path : String) : String :=
  "Backup file " ++ path ++ " not found"

/-- The restore error when the target has no backup
(src/commands.rs 188-194). -/
def noBackupMsg (path : String) : String :=
  "No backup found for " ++ path ++ ". File may already be in original state."

/-- Models Rust `str::ends_with` on character lists. -/
def strEndsWith (p s : String) : Bool :=
  s.toList.reverse.isPrefixOf p.toList.reverse

/-- Models Rust `str::strip_suffix` for a suffix of the given character
count, dropping that many trailing characters. -/
def stripSuffixLen (p : String) (n : Nat) : String :=
  String.mk (p.toList.take (p.toList.length - n))

/-- Models commands::restore_original: a path that ends in ".backup" is
treated as the backup file itself and copied onto the path with the
suffix stripped, erroring when that file is absent and bypassing the
handler entirely; any other path goes through the handler, errors when
no backup exists, and otherwise copies the backup over the target
(src/commands.rs 165-197 and src/atomic_file.rs 167-181). -/
def restore_original (path : String) (fs : FS) : Except String Unit × FS :=
  if strEndsWith path ".backup" then
    let originalPath := stripSuffixLen path 7
    match fs path with
    | none => (.error (backupMissingMsg path), fs)
    | some d => (.ok (), fs.write originalPath d)
  else
    match AtomicFileHandler.new path fs with
    | .error e => (.error e, fs)
    | .ok h =>
      if !fs.pathExists h.backup_path then (.error (noBackupMsg path), fs)
      else
        match fs h.backup_path with
        | some d => (.ok (), fs.write h.target_path d)
        | none => (.error "No backup file found. Cannot restore original.", fs)

/-- Models commands::cleanup_files: build the handler, then delete the
temp and backup files when present (src/commands.rs 199-202 and
src/atomic_file.rs 184-210). -/
def cleanup_files (path : String) (fs : FS) : Except String Unit × FS :=
  match AtomicFileHandler.new path fs with
  | .error e => (.error e, fs)
  | .ok h =>
    let fs1 := if fs.pathExists h.temp_path then fs.removeFile h.temp_path else fs
    let fs2 := if fs1.pathExists h.backup_path then fs1.removeFile h.backup_path else fs1
    (.ok (), fs2)

/-- Models commands::show_status: build the handler, then report whether
the target and the backup exist (src/commands.rs 204-228).  The returned
pair is (target exists, backup exists), the facts the source prints. -/
def show_status (path : String) (fs : FS) : Except String (Bool × Bool) :=
  (AtomicFileHandler.new path fs).map (fun h =>
    (fs.pathExists h.target_path, fs.pathExists h.backup_path))


/-! ## Serialization round-trip lemmas -/

theorem readBE32_be32 {n : Nat} (r : List Nat) (h : n < 2 ^ 32) :
    readBE32 (be32 n ++ r) = some (n, r) := by
  unfold be32 readBE32
  simp only [List.cons_append, List.nil_append]
  congr 1
  congr 1
  omega

theorem crc32_lt (data : List Nat) : crc32 data < 2 ^ 32 := by
  have hround : ∀ x, x < 2 ^ 32 → crc32Round x < 2 ^ 32 := by
    intro x hlt
    unfold crc32Round
    split
    · exact Nat.xor_lt_two_pow (by omega) (by norm_num)
    · omega
  have hstep : ∀ (c : Nat) (b : Nat), c < 2 ^ 32 → crc32Byte c b < 2 ^ 32 := by
    intro c b hc
    have hx : Nat.xor c (b % 256) < 2 ^ 32 :=
      Nat.xor_lt_two_pow hc (lt_trans (Nat.mod_lt _ (by norm_num)) (by norm_num))
    show crc32Round (crc32Round (crc32Round (crc32Round (crc32Round (crc32Round
      (crc32Round (crc32Round (Nat.xor c (b % 256))))))))) < 2 ^ 32
    exact hround _ (hround _ (hround _ (hround _ (hround _ (hround _ (hround _
      (hround _ hx)))))))
  have hfold : ∀ (l : List Nat) (acc : Nat), acc < 2 ^ 32 →
      l.foldl crc32Byte acc < 2 ^ 32 := by
    intro l
    induction l with
    | nil => intro acc h; simpa using h
    | cons b bs ih => intro acc h; simpa using ih _ (hstep acc b h)
  exact Nat.xor_lt_two_pow (hfold data 0xFFFFFFFF (by norm_num)) (by norm_num)

theorem serialize_ne_nil (c : Chunk) : c.serialize ≠ [] := by
  unfold Chunk.serialize be32
  simp

theorem parseChunkStep_serialize (c : Chunk) (r : List Nat) (hwf : c.WF) :
    parseChunkStep (c.serialize ++ r) = .ok (c, r) := by
  obtain ⟨hty, halpha, hlen⟩ := hwf
  unfold Chunk.serialize parseChunkStep
  simp only [List.append_assoc]
  rw [readBE32_be32 _ hlen]
  dsimp only
  rw [List.take_left' hty, List.drop_left' hty, if_pos hty, if_pos halpha,
    List.take_left, List.drop_left, if_pos rfl, readBE32_be32 _ (crc32_lt _)]
  dsimp only
  rw [if_pos rfl]

theorem parseChunks_serialize (cs : List Chunk) (hwf : ∀ c ∈ cs, c.WF) :
    ∀ fuel, cs.length ≤ fuel →
      parseChunks fuel (cs.map Chunk.serialize).flatten = .ok cs := by
  induction cs with
  | nil =>
    intro fuel _
    simp [parseChunks]
  | cons c cs ih =>
    intro fuel hle
    cases fuel with
    | zero => exact absurd hle (by simp)
    | succ fuel =>
      have hwfc : c.WF := hwf c (by simp)
      have hwf2 : ∀ x ∈ cs, x.WF := fun x hx => hwf x (by simp [hx])
      have hle2 : cs.length ≤ fuel := by simpa using hle
      have hstep := parseChunkStep_serialize c ((cs.map Chunk.serialize).flatten) hwfc
      simp only [List.map_cons, List.flatten_cons]
      cases hb : c.serialize ++ (cs.map Chunk.serialize).flatten with
      | nil => exact absurd (List.append_eq_nil.mp hb).1 (serialize_ne_nil c)
      | cons b bs =>
        rw [parseChunks, ← hb, hstep]
        dsimp only
        rw [ih hwf2 fuel hle2]

theorem flatten_length_ge (ls : List (List Nat)) (h : ∀ l ∈ ls, l ≠ []) :
    ls.length ≤ ls.flatten.length := by
  induction ls with
  | nil => simp
  | cons l rest ih =>
    have hl : l ≠ [] := h l (by simp)
    have hlen : 1 ≤ l.length := by
      cases l with
      | nil => exact absurd rfl hl
      | cons a as => simp
    have := ih (fun x hx => h x (by simp [hx]))
    simp only [List.flatten_cons, List.length_append, List.length_cons]
    omega

theorem png_parse_asBytes (png : Png) (hwf : ∀ c ∈ png.chunks, c.WF) :
    Png.parse png.asBytes = .ok png := by
  unfold Png.parse Png.asBytes
  have hsig : pngSignature.length = 8 := rfl
  rw [List.take_left' hsig, if_pos rfl, List.drop_left' hsig]
  have hfuel : png.chunks.length ≤
      (pngSignature ++ (png.chunks.map Chunk.serialize).flatten).length := by
    have hfl := flatten_length_ge (png.chunks.map Chunk.serialize) (by
      intro l hl
      obtain ⟨c, _, rfl⟩ := List.mem_map.mp hl
      exact serialize_ne_nil c)
    rw [List.length_append]
    simp only [List.length_map] at hfl
    omega
  rw [parseChunks_serialize png.chunks hwf _ hfuel]
  rfl

/-! ## Concrete sample data, used to evaluate the theorems at concrete
inputs -/

/-- A concrete IEND chunk. -/
def sampleIend : Chunk := ⟨⟨strBytes "IEND"⟩, []⟩

/-- A concrete IHDR chunk with 13 zero data bytes. -/
def sampleIhdr : Chunk := ⟨⟨strBytes "IHDR"⟩, List.replicate 13 0⟩

/-- A minimal container: signature ++ IHDR ++ IEND. -/
def samplePng : Png := ⟨[sampleIhdr, sampleIend]⟩

/-- A filesystem holding the minimal container at img.png. -/
def sampleFS : FS := fun q => if q = "img.png" then some samplePng.asBytes else none

/-- A container that already holds a ruSt payload chunk. -/
def samplePng2 : Png :=
  ⟨[sampleIhdr, ⟨⟨strBytes "ruSt"⟩, strBytes "hello"⟩, sampleIend]⟩

/-- A filesystem holding that container at img.png. -/
def sampleFS2 : FS := fun q => if q = "img.png" then some samplePng2.asBytes else none

/-! ## Elementary filesystem lemmas -/

theorem FS.write_self (fs : FS) (p : String) (d : List Nat) :
    fs.write p d p = some d := by
  simp [FS.write]

theorem FS.write_ne (fs : FS) {p q : String} (d : List Nat) (h : q ≠ p) :
    fs.write p d q = fs q := by
  simp [FS.write, h]

theorem FS.removeFile_self (fs : FS) (p : String) : fs.removeFile p p = none := by
  simp [FS.removeFile]

theorem FS.removeFile_ne (fs : FS) {p q : String} (h : q ≠ p) :
    fs.removeFile p q = fs q := by
  simp [FS.removeFile, h]

theorem pathExists_of_some {fs : FS} {p : String} {d : List Nat}
    (h : fs p = some d) : fs.pathExists p = true := by
  simp [FS.pathExists, h]

theorem none_of_pathExists_false {fs : FS} {p : String}
    (h : fs.pathExists p = false) : fs p = none := by
  unfold FS.pathExists at h
  cases hf : fs p with
  | none => rfl
  | some d => rw [hf] at h; simp at h

/-! ## Path derivation lemmas -/

theorem dropWhile_head_false {q : Char → Bool} {l r : List Char} {c : Char}
    (h : l.dropWhile q = c :: r) : q c = false := by
  induction l with
  | nil => simp at h
  | cons a as ih =>
    rw [List.dropWhile_cons] at h
    split at h
    · exact ih h
    · cases h
      rename_i hq
      simpa using hq

theorem setExtension_ext {p e : List Char} (newExt : List Char)
    (h : pathExtension p = some e) :
    setExtension p (e ++ newExt) = p ++ newExt := by
  unfold setExtension
  rw [h]
  dsimp only
  unfold pathExtension at h
  cases hd : (fileRev p).dropWhile (fun c => c != '.') with
  | nil => rw [hd] at h; simp at h
  | cons c stemRev =>
    rw [hd] at h
    dsimp only at h
    by_cases hs : stemRev = ([] : List Char)
    · simp [hs] at h
    · simp only [hs, if_false] at h
      have he : e = ((fileRev p).takeWhile (fun c => c != '.')).reverse :=
        (Option.some.injEq _ _ ▸ h).symm
      have hsplit : (fileRev p).takeWhile (fun c => c != '.') ++ (c :: stemRev) =
          fileRev p := by
        rw [← hd]; exact List.takeWhile_append_dropWhile _ _
      have hp : fileRev p ++ dirRev p = p.reverse :=
        List.takeWhile_append_dropWhile _ _
      rw [he]
      conv_rhs => rw [← List.reverse_reverse p, ← hp, ← hsplit]
      simp [List.reverse_append, List.append_assoc]

theorem generate_temp_path_eq {p : String} {e : List Char}
    (h : pathExtension p.toList = some e) :
    generate_temp_path p = .ok (p ++ ".tmp") := by
  unfold generate_temp_path
  rw [h]
  dsimp only
  rw [setExtension_ext ".tmp".toList h]
  rfl

theorem generate_backup_path_eq {p : String} {e : List Char}
    (h : pathExtension p.toList = some e) :
    generate_backup_path p = .ok (p ++ ".backup") := by
  unfold generate_backup_path
  rw [h]
  dsimp only
  rw [setExtension_ext ".backup".toList h]
  rfl

theorem tmp_ne_target (p : String) : p ++ ".tmp" ≠ p := by
  intro h
  have hl := congrArg String.length h
  rw [String.length_append] at hl
  have h4 : String.length ".tmp" = 4 := rfl
  omega

theorem backup_ne_target (p : String) : p ++ ".backup" ≠ p := by
  intro h
  have hl := congrArg String.length h
  rw [String.length_append] at hl
  have h7 : String.length ".backup" = 7 := rfl
  omega

theorem tmp_ne_backup (p : String) : p ++ ".tmp" ≠ p ++ ".backup" := by
  intro h
  have hl := congrArg String.length h
  rw [String.length_append, String.length_append] at hl
  have h4 : String.length ".tmp" = 4 := rfl
  have h7 : String.length ".backup" = 7 := rfl
  omega

theorem new_ok {p : String} {e : List Char} {fs : FS}
    (hex : fs.pathExists p = true) (hext : pathExtension p.toList = some e) :
    AtomicFileHandler.new p fs = .ok ⟨p, p ++ ".tmp", p ++ ".backup"⟩ := by
  unfold AtomicFileHandler.new
  rw [hex, generate_temp_path_eq hext, generate_backup_path_eq hext]
  simp

/-! ## Claim C6 -/

/-- Claim C6: for every target path of the form X.ext (possessing an
extension), the derived temp path is exactly X.ext.tmp and the derived
backup path is exactly X.ext.backup; for every target path without an
extension, transaction construction fails with an error. -/
theorem claim_c6 (p : String) :
    (∀ e, pathExtension p.toList = some e →
      generate_temp_path p = .ok (p ++ ".tmp") ∧
      generate_backup_path p = .ok (p ++ ".backup")) ∧
    (pathExtension p.toList = none →
      ∀ fs : FS, (AtomicFileHandler.new p fs).isOk = false) := by
  constructor
  · intro e he
    exact ⟨generate_temp_path_eq he, generate_backup_path_eq he⟩
  · intro hn fs
    unfold AtomicFileHandler.new
    cases hex : fs.pathExists p
    · simp [Except.isOk, Except.toBool]
    · unfold generate_temp_path generate_backup_path
      rw [hn]
      simp [Except.isOk, Except.toBool]

/-- Witness for C6, at the paths img.png and noext on a one-file
filesystem. -/
theorem claim_c6_witness :
    generate_temp_path "img.png" = .ok ("img.png" ++ ".tmp") ∧
    (AtomicFileHandler.new "noext" (fun _ => some [])).isOk = false :=
  ⟨((claim_c6 "img.png").1 "png".toList (by decide)).1,
    (claim_c6 "noext").2 (by decide) (fun _ => some [])⟩

/-! ## Claim C3 -/

/-- Claim C3: for every path and every critical tag in IHDR, PLTE, IDAT,
IEND, encode returns the critical-chunk ValidationError with the
filesystem (hence the target file) byte-for-byte unchanged, while remove
completes successfully as a no-op outcome with the filesystem unchanged:
the add and remove paths treat critical tags asymmetrically. -/
theorem claim_c3 (p tag : String) (msg : List Nat) (fs : FS)
    (hc : criticalChunks.contains tag = true) :
    encode p tag msg fs = (.error (criticalMsg tag), fs) ∧
    remove p tag fs = (.ok .criticalNoop, fs) := by
  unfold encode remove
  rw [hc]
  simp

/-- Witness for C3 at tag IEND on a one-file filesystem. -/
theorem claim_c3_witness :
    encode "img.png" "IEND" [120] (fun _ => some [1]) =
      (.error (criticalMsg "IEND"), fun _ => some [1]) ∧
    remove "img.png" "IEND" (fun _ => some [1]) =
      (.ok .criticalNoop, fun _ => some [1]) :=
  claim_c3 "img.png" "IEND" [120] (fun _ => some [1]) (by decide)

/-! ## Claim C9 -/

/-- Claim C9: if restore is called with a path that ends in ".backup", it
treats that path as the backup file itself: it copies that file onto the
path with the ".backup" suffix stripped, erroring when the backup file
does not exist, bypassing the handler-based backup lookup entirely. -/
theorem claim_c9 (p : String) (fs : FS) (hb : strEndsWith p ".backup" = true) :
    (fs p = none →
      restore_original p fs = (.error (backupMissingMsg p), fs)) ∧
    (∀ d, fs p = some d →
      restore_original p fs = (.ok (), fs.write (stripSuffixLen p 7) d)) := by
  constructor
  · intro hn
    unfold restore_original
    rw [hb]
    simp [hn]
  · intro d hd
    unfold restore_original
    rw [hb]
    simp [hd]

/-- Witness for C9: restoring img.png.backup copies it onto img.png. -/
theorem claim_c9_witness :
    restore_original "img.png.backup"
        (fun q => if q = "img.png.backup" then some [5, 6] else none) =
      (.ok (), FS.write
        (fun q => if q = "img.png.backup" then some [5, 6] else none)
        (stripSuffixLen "img.png.backup" 7) [5, 6]) :=
  (claim_c9 "img.png.backup"
      (fun q => if q = "img.png.backup" then some [5, 6] else none)
      (by decide)).2 [5, 6] (by decide)

/-! ## Claim C5 -/

/-- Counterexample to claim C5 as stated: on a filesystem with no files,
status on img.png does not complete successfully reporting
target_exists = false; it fails with the handler-construction error,
because AtomicFileHandler::new validates existence up front
(src/atomic_file.rs lines 16-19). -/
theorem claim_c5_counterexample :
    show_status "img.png" (fun _ => none) =
      .error ("File does not exist: " ++ "img.png") := by
  rfl

/-- Claim C5 as amended: for every path whose target file exists and has
an extension, status completes successfully and reports
target_exists = true together with whether the backup file exists; when
the target file does not exist, status instead fails with the
handler-construction error. -/
theorem claim_c5_amended (p : String) (fs : FS) :
    (∀ d e, fs p = some d → pathExtension p.toList = some e →
      show_status p fs = .ok (true, fs.pathExists (p ++ ".backup"))) ∧
    (fs p = none →
      show_status p fs = .error ("File does not exist: " ++ p)) := by
  constructor
  · intro d e hd hext
    unfold show_status
    rw [new_ok (pathExists_of_some hd) hext]
    simp [Except.map, FS.pathExists, hd]
  · intro hn
    unfold show_status AtomicFileHandler.new
    simp [FS.pathExists, hn, Except.map]

/-- Witness for the amended C5, on a filesystem holding img.png and its
backup. -/
theorem claim_c5_amended_witness :
    show_status "img.png"
        (fun q => if q = "img.png" then some [1] else
          if q = "img.png.backup" then some [2] else none) =
      .ok (true, FS.pathExists
        (fun q => if q = "img.png" then some [1] else
          if q = "img.png.backup" then some [2] else none) ("img.png" ++ ".backup")) :=
  (claim_c5_amended "img.png"
      (fun q => if q = "img.png" then some [1] else
        if q = "img.png.backup" then some [2] else none)).1
    [1] "png".toList (by decide) (by decide)

/-! ## Rollback and transaction lemmas -/

theorem rollback_facts (fs : FS) (h : AtomicFileHandler) {d : List Nat}
    (hne1 : h.temp_path ≠ h.target_path) (hne2 : h.temp_path ≠ h.backup_path)
    (hbd : fs h.backup_path = some d) :
    rollback fs h h.target_path = some d ∧ rollback fs h h.temp_path = none := by
  cases hex : fs.pathExists h.temp_path with
  | true =>
    have hbp2 : fs.removeFile h.temp_path h.backup_path = some d := by
      rw [FS.removeFile_ne fs (Ne.symm hne2)]; exact hbd
    constructor
    · simp [rollback, hex, hbp2, FS.write_self]
    · simp [rollback, hex, hbp2]
      rw [FS.write_ne _ _ hne1]
      exact FS.removeFile_self _ _
  | false =>
    constructor
    · simp [rollback, hex, hbd, FS.write_self]
    · simp [rollback, hex, hbd]
      rw [FS.write_ne _ _ hne1]
      exact none_of_pathExists_false hex

/-! ## Claim C1 -/

/-- Claim C1: for every mutation run through the transaction, if the
mutate step, the staged write, or the commit fails, the transaction
rolls back so that the target file's bytes equal its pre-transaction
bytes exactly and no temp file remains; and under any single injected
failure the target undergoes at most one visible state transition:
afterwards it holds either its original bytes or exactly the committed
output of the mutation. -/
theorem claim_c1 (fs : FS) (h : AtomicFileHandler)
    (f : List Nat → Except String (List Nat)) (fault : Fault) (orig : List Nat)
    (hne1 : h.temp_path ≠ h.target_path)
    (hne2 : h.backup_path ≠ h.target_path)
    (hne3 : h.temp_path ≠ h.backup_path)
    (horig : fs h.target_path = some orig) :
    ((fault = .atMutate ∨ fault = .atWrite ∨ fault = .atCommit) →
      (atomic_modify fs h f fault).1.isOk = false ∧
      (atomic_modify fs h f fault).2 h.target_path = some orig ∧
      (atomic_modify fs h f fault).2 h.temp_path = none) ∧
    ((atomic_modify fs h f fault).2 h.target_path = some orig ∨
      ((atomic_modify fs h f fault).1 = .ok () ∧
        ∃ newc, f orig = .ok newc ∧
          (atomic_modify fs h f fault).2 h.target_path = some newc)) := by
  have hc1 : fs.write h.backup_path orig h.target_path = some orig := by
    rw [FS.write_ne _ _ (Ne.symm hne2)]; exact horig
  have hc2 : ∀ d, ((fs.write h.backup_path orig).write h.temp_path d) h.backup_path
      = some orig := by
    intro d
    rw [FS.write_ne _ _ (Ne.symm hne3)]
    exact FS.write_self _ _ _
  have hrb2 : ∀ d, rollback ((fs.write h.backup_path orig).write h.temp_path d) h
        h.target_path = some orig ∧
      rollback ((fs.write h.backup_path orig).write h.temp_path d) h
        h.temp_path = none :=
    fun d => rollback_facts _ h hne1 hne3 (hc2 d)
  have hrb3 : ∀ d m,
      rollback (((fs.write h.backup_path orig).write h.temp_path d).write h.temp_path m) h
        h.target_path = some orig ∧
      rollback (((fs.write h.backup_path orig).write h.temp_path d).write h.temp_path m) h
        h.temp_path = none :=
    fun d m => rollback_facts _ h hne1 hne3
      (by rw [FS.write_ne _ _ (Ne.symm hne3)]; exact hc2 d)
  cases fault with
  | noFault =>
    refine ⟨by rintro (hx | hx | hx) <;> simp at hx, ?_⟩
    cases hf : f orig with
    | error e =>
      simp [atomic_modify, horig, hc1, hf]
      exact (hrb2 orig).1
    | ok newc =>
      refine Or.inr ⟨?_, newc, rfl, ?_⟩
      · simp [atomic_modify, horig, hc1, hf, FS.rename, FS.write_self]
      · simp [atomic_modify, horig, hc1, hf, FS.rename, FS.write_self]
  | atBackup =>
    refine ⟨by rintro (hx | hx | hx) <;> simp at hx, Or.inl ?_⟩
    simp [atomic_modify, horig]
  | atRead =>
    refine ⟨by rintro (hx | hx | hx) <;> simp at hx, Or.inl ?_⟩
    simp [atomic_modify, horig, hc1]
  | atStage =>
    refine ⟨by rintro (hx | hx | hx) <;> simp at hx, Or.inl ?_⟩
    simp [atomic_modify, horig, hc1]
  | atMutate =>
    refine ⟨fun _ => ⟨?_, ?_, ?_⟩, Or.inl ?_⟩
    · simp [atomic_modify, horig, hc1, Except.isOk, Except.toBool]
    · simp [atomic_modify, horig, hc1]
      exact (hrb2 orig).1
    · simp [atomic_modify, horig, hc1]
      exact (hrb2 orig).2
    · simp [atomic_modify, horig, hc1]
      exact (hrb2 orig).1
  | atWrite =>
    cases hf : f orig with
    | error e =>
      refine ⟨fun _ => ⟨?_, ?_, ?_⟩, Or.inl ?_⟩
      · simp [atomic_modify, horig, hc1, hf, Except.isOk, Except.toBool]
      · simp [atomic_modify, horig, hc1, hf]
        exact (hrb2 orig).1
      · simp [atomic_modify, horig, hc1, hf]
        exact (hrb2 orig).2
      · simp [atomic_modify, horig, hc1, hf]
        exact (hrb2 orig).1
    | ok newc =>
      refine ⟨fun _ => ⟨?_, ?_, ?_⟩, Or.inl ?_⟩
      · simp [atomic_modify, horig, hc1, hf, Except.isOk, Except.toBool]
      · simp [atomic_modify, horig, hc1, hf]
        exact (hrb2 orig).1
      · simp [atomic_modify, horig, hc1, hf]
        exact (hrb2 orig).2
      · simp [atomic_modify, horig, hc1, hf]
        exact (hrb2 orig).1
  | atCommit =>
    cases hf : f orig with
    | error e =>
      refine ⟨fun _ => ⟨?_, ?_, ?_⟩, Or.inl ?_⟩
      · simp [atomic_modify, horig, hc1, hf, Except.isOk, Except.toBool]
      · simp [atomic_modify, horig, hc1, hf]
        exact (hrb2 orig).1
      · simp [atomic_modify, horig, hc1, hf]
        exact (hrb2 orig).2
      · simp [atomic_modify, horig, hc1, hf]
        exact (hrb2 orig).1
    | ok newc =>
      refine ⟨fun _ => ⟨?_, ?_, ?_⟩, Or.inl ?_⟩
      · simp [atomic_modify, horig, hc1, hf, Except.isOk, Except.toBool]
      · simp [atomic_modify, horig, hc1, hf]
        exact (hrb3 orig newc).1
      · simp [atomic_modify, horig, hc1, hf]
        exact (hrb3 orig newc).2
      · simp [atomic_modify, horig, hc1, hf]
        exact (hrb3 orig newc).1

/-- Witness for C1: an injected staged-write failure on a one-file
filesystem leaves img.png holding its original bytes and no temp file. -/
theorem claim_c1_witness :
    (atomic_modify (fun q => if q = "img.png" then some [1, 2] else none)
        ⟨"img.png", "img.png.tmp", "img.png.backup"⟩
        (fun _ => .ok [9]) .atWrite).1.isOk = false ∧
    (atomic_modify (fun q => if q = "img.png" then some [1, 2] else none)
        ⟨"img.png", "img.png.tmp", "img.png.backup"⟩
        (fun _ => .ok [9]) .atWrite).2 "img.png" = some [1, 2] ∧
    (atomic_modify (fun q => if q = "img.png" then some [1, 2] else none)
        ⟨"img.png", "img.png.tmp", "img.png.backup"⟩
        (fun _ => .ok [9]) .atWrite).2 "img.png.tmp" = none :=
  (claim_c1 (fun q => if q = "img.png" then some [1, 2] else none)
      ⟨"img.png", "img.png.tmp", "img.png.backup"⟩
      (fun _ => .ok [9]) .atWrite [1, 2]
      (by decide) (by decide) (by decide) (by decide)).1
    (Or.inr (Or.inl rfl))


/-! ## Well-formedness of parsed chunks -/

theorem readBE32_inv {bytes : List Nat} {n : Nat} {r : List Nat}
    (h : readBE32 bytes = some (n, r)) :
    ∃ a b c d, bytes = a :: b :: c :: d :: r ∧
      n = ((a * 256 + b) * 256 + c) * 256 + d := by
  match bytes with
  | [] => simp [readBE32] at h
  | [a] => simp [readBE32] at h
  | [a, b] => simp [readBE32] at h
  | [a, b, c] => simp [readBE32] at h
  | a :: b :: c :: d :: rest =>
    simp only [readBE32, Option.some.injEq, Prod.mk.injEq] at h
    exact ⟨a, b, c, d, by rw [h.2], h.1.symm⟩

theorem parseChunkStep_wf {bytes : List Nat} {c : Chunk} {r : List Nat}
    (hb : ∀ x ∈ bytes, x < 256) (h : parseChunkStep bytes = .ok (c, r)) :
    c.WF ∧ ∀ x ∈ r, x < 256 := by
  unfold parseChunkStep at h
  cases hread : readBE32 bytes with
  | none => rw [hread] at h; simp at h
  | some pr =>
    obtain ⟨len, r1⟩ := pr
    rw [hread] at h
    dsimp only at h
    obtain ⟨a, b0, c0, d0, hbeq, hneq⟩ := readBE32_inv hread
    have hr1 : ∀ x ∈ r1, x < 256 := fun x hx => hb x (by rw [hbeq]; simp [hx])
    have hlen32 : len < 2 ^ 32 := by
      have ha := hb a (by rw [hbeq]; simp)
      have hb0 := hb b0 (by rw [hbeq]; simp)
      have hc0 := hb c0 (by rw [hbeq]; simp)
      have hd0 := hb d0 (by rw [hbeq]; simp)
      omega
    split at h
    case isFalse => simp at h
    case isTrue hty =>
      split at h
      case isFalse => simp at h
      case isTrue halpha =>
        split at h
        case isFalse => simp at h
        case isTrue hdata =>
          cases hread2 : readBE32 ((r1.drop 4).drop len) with
          | none => rw [hread2] at h; simp at h
          | some pr2 =>
            obtain ⟨crc, r4⟩ := pr2
            rw [hread2] at h
            dsimp only at h
            split at h
            case isFalse => simp at h
            case isTrue hcrc =>
              simp only [Except.ok.injEq, Prod.mk.injEq] at h
              obtain ⟨hc, hr⟩ := h
              subst hc
              subst hr
              refine ⟨⟨hty, halpha, by rw [hdata]; exact hlen32⟩, ?rest⟩
              obtain ⟨a2, b2, c2, d2, hbeq2, _⟩ := readBE32_inv hread2
              intro x hx
              refine hr1 x ?mem
              have hxin : x ∈ (r1.drop 4).drop len := by rw [hbeq2]; simp [hx]
              exact List.drop_subset _ _ (List.drop_subset _ _ hxin)

theorem parseChunks_wf :
    ∀ (fuel : Nat) (bytes : List Nat) (cs : List Chunk),
      (∀ x ∈ bytes, x < 256) → parseChunks fuel bytes = .ok cs →
      ∀ c ∈ cs, c.WF := by
  intro fuel
  induction fuel with
  | zero =>
    intro bytes cs hb h
    cases bytes with
    | nil => simp [parseChunks] at h; subst h; simp
    | cons b bs => simp [parseChunks] at h
  | succ fuel ih =>
    intro bytes cs hb h
    cases bytes with
    | nil => simp [parseChunks] at h; subst h; simp
    | cons b bs =>
      rw [parseChunks] at h
      cases hstep : parseChunkStep (b :: bs) with
      | error e => rw [hstep] at h; simp at h
      | ok pr =>
        obtain ⟨c, rest⟩ := pr
        rw [hstep] at h
        dsimp only at h
        cases htail : parseChunks fuel rest with
        | error e => rw [htail] at h; simp at h
        | ok cs2 =>
          rw [htail] at h
          simp only [Except.ok.injEq] at h
          subst h
          obtain ⟨hcwf, hrest⟩ := parseChunkStep_wf hb hstep
          intro x hx
          cases hx with
          | head => exact hcwf
          | tail _ hx2 => exact ih rest cs2 hrest htail x hx2

theorem png_parse_wf {bytes : List Nat} {png : Png}
    (hb : ∀ x ∈ bytes, x < 256) (h : Png.parse bytes = .ok png) :
    ∀ c ∈ png.chunks, c.WF := by
  unfold Png.parse at h
  split at h
  case isFalse => simp at h
  case isTrue hsig =>
    cases hp : parseChunks bytes.length (bytes.drop 8) with
    | error e => rw [hp] at h; simp [Except.map] at h
    | ok cs =>
      rw [hp] at h
      simp only [Except.map, Except.ok.injEq] at h
      have hb2 : ∀ x ∈ bytes.drop 8, x < 256 :=
        fun x hx => hb x (List.drop_subset _ _ hx)
      have := parseChunks_wf bytes.length (bytes.drop 8) cs hb2 hp
      rw [← h]
      exact this

/-! ## Lemmas about chunk lookup and removal -/

theorem removeFirst_some {p : Chunk → Bool} :
    ∀ {cs : List Chunk} {c : Chunk} {rest : List Chunk},
      removeFirst p cs = some (c, rest) →
      p c = true ∧ ∃ l1 l2, cs = l1 ++ c :: l2 ∧ rest = l1 ++ l2 ∧
        ∀ x ∈ l1, p x = false := by
  intro cs
  induction cs with
  | nil => intro c rest h; simp [removeFirst] at h
  | cons a as ih =>
    intro c rest h
    unfold removeFirst at h
    by_cases ha : p a
    · rw [if_pos ha] at h
      simp only [Option.some.injEq, Prod.mk.injEq] at h
      obtain ⟨rfl, rfl⟩ := h
      exact ⟨ha, [], as, rfl, rfl, by simp⟩
    · rw [if_neg ha] at h
      cases hr : removeFirst p as with
      | none => rw [hr] at h; simp at h
      | some pr =>
        obtain ⟨c2, rest2⟩ := pr
        rw [hr] at h
        simp only [Option.map, Option.some.injEq, Prod.mk.injEq] at h
        obtain ⟨rfl, rfl⟩ := h
        obtain ⟨hpc, l1, l2, heq, hrest, hall⟩ := ih hr
        refine ⟨hpc, a :: l1, l2, by rw [heq]; rfl, by rw [hrest]; simp, ?all⟩
        intro x hx
        cases hx with
        | head => exact Bool.eq_false_iff.mpr ha
        | tail _ hx2 => exact hall x hx2

theorem removeFirst_of_mem {p : Chunk → Bool} :
    ∀ {cs : List Chunk} {c : Chunk}, c ∈ cs → p c = true →
      ∃ pr, removeFirst p cs = some pr := by
  intro cs
  induction cs with
  | nil => intro c h; simp at h
  | cons a as ih =>
    intro c hmem hp
    unfold removeFirst
    by_cases ha : p a
    · exact ⟨(a, as), by rw [if_pos ha]⟩
    · rw [if_neg ha]
      cases hmem with
      | head => exact absurd hp (by simpa using ha)
      | tail _ hmem2 =>
        obtain ⟨pr, hpr⟩ := ih hmem2 hp
        exact ⟨(pr.1, a :: pr.2), by rw [hpr]; rfl⟩

theorem find?_append_false {p : Chunk → Bool} :
    ∀ {l1 l2 : List Chunk}, (∀ x ∈ l1, p x = false) →
      (l1 ++ l2).find? p = l2.find? p := by
  intro l1
  induction l1 with
  | nil => intro l2 _; rfl
  | cons a as ih =>
    intro l2 hall
    have ha : p a = false := hall a (by simp)
    simp only [List.cons_append, List.find?_cons, ha]
    exact ih (fun x hx => hall x (by simp [hx]))


/-! ## Pointwise evaluation of the successful and failing transaction -/

theorem rollback_backup (fs : FS) (h : AtomicFileHandler) {d : List Nat}
    (hne2 : h.temp_path ≠ h.backup_path) (hne4 : h.backup_path ≠ h.target_path)
    (hbd : fs h.backup_path = some d) :
    rollback fs h h.backup_path = some d := by
  cases hex : fs.pathExists h.temp_path with
  | true =>
    have hbp2 : fs.removeFile h.temp_path h.backup_path = some d := by
      rw [FS.removeFile_ne fs (Ne.symm hne2)]; exact hbd
    simp [rollback, hex, hbp2, FS.write_ne _ _ hne4]
  | false =>
    simp [rollback, hex, hbd, FS.write_ne _ _ hne4]

theorem atomic_modify_noFault_ok (fs : FS) (h : AtomicFileHandler)
    (f : List Nat → Except String (List Nat)) {orig newc : List Nat}
    (hne1 : h.temp_path ≠ h.target_path)
    (hne2 : h.backup_path ≠ h.target_path)
    (hne3 : h.temp_path ≠ h.backup_path)
    (horig : fs h.target_path = some orig) (hf : f orig = .ok newc) :
    (atomic_modify fs h f .noFault).1 = .ok () ∧
    (atomic_modify fs h f .noFault).2 h.target_path = some newc ∧
    (atomic_modify fs h f .noFault).2 h.backup_path = some orig ∧
    (atomic_modify fs h f .noFault).2 h.temp_path = none := by
  have hc1 : fs.write h.backup_path orig h.target_path = some orig := by
    rw [FS.write_ne _ _ (Ne.symm hne2)]; exact horig
  refine ⟨?_, ?_, ?_, ?_⟩
  · simp [atomic_modify, horig, hc1, hf, FS.rename, FS.write_self]
  · simp [atomic_modify, horig, hc1, hf, FS.rename, FS.write_self]
  · simp [atomic_modify, horig, hc1, hf, FS.rename, FS.write_self,
      FS.write_ne _ _ hne2, FS.removeFile_ne _ (Ne.symm hne3),
      FS.write_ne _ _ (Ne.symm hne3)]
  · simp [atomic_modify, horig, hc1, hf, FS.rename, FS.write_self,
      FS.write_ne _ _ hne1, FS.removeFile_self]

theorem atomic_modify_noFault_error (fs : FS) (h : AtomicFileHandler)
    (f : List Nat → Except String (List Nat)) {orig : List Nat} {err : String}
    (hne1 : h.temp_path ≠ h.target_path)
    (hne2 : h.backup_path ≠ h.target_path)
    (hne3 : h.temp_path ≠ h.backup_path)
    (horig : fs h.target_path = some orig) (hf : f orig = .error err) :
    (atomic_modify fs h f .noFault).1 = .error err ∧
    (atomic_modify fs h f .noFault).2 h.target_path = some orig ∧
    (atomic_modify fs h f .noFault).2 h.backup_path = some orig ∧
    (atomic_modify fs h f .noFault).2 h.temp_path = none := by
  have hc1 : fs.write h.backup_path orig h.target_path = some orig := by
    rw [FS.write_ne _ _ (Ne.symm hne2)]; exact horig
  have hc2 : ((fs.write h.backup_path orig).write h.temp_path orig) h.backup_path
      = some orig := by
    rw [FS.write_ne _ _ (Ne.symm hne3)]
    exact FS.write_self _ _ _
  have hrb := rollback_facts ((fs.write h.backup_path orig).write h.temp_path orig)
    h hne1 hne3 hc2
  have hrbb := rollback_backup ((fs.write h.backup_path orig).write h.temp_path orig)
    h hne3 hne2 hc2
  refine ⟨?_, ?_, ?_, ?_⟩
  · simp [atomic_modify, horig, hc1, hf]
  · simp [atomic_modify, horig, hc1, hf]
    exact hrb.1
  · simp [atomic_modify, horig, hc1, hf]
    exact hrbb
  · simp [atomic_modify, horig, hc1, hf]
    exact hrb.2

theorem atomic_modify_ok_inv {fs fs2 : FS} {h : AtomicFileHandler}
    {f : List Nat → Except String (List Nat)} {orig : List Nat}
    (hne1 : h.temp_path ≠ h.target_path)
    (hne2 : h.backup_path ≠ h.target_path)
    (hne3 : h.temp_path ≠ h.backup_path)
    (horig : fs h.target_path = some orig)
    (ham : atomic_modify fs h f .noFault = (.ok (), fs2)) :
    ∃ newc, f orig = .ok newc ∧ fs2 h.target_path = some newc ∧
      fs2 h.backup_path = some orig ∧ fs2 h.temp_path = none := by
  cases hf : f orig with
  | error err =>
    exfalso
    have hres := (atomic_modify_noFault_error fs h f hne1 hne2 hne3 horig hf).1
    rw [ham] at hres
    simp at hres
  | ok newc =>
    have hfacts := atomic_modify_noFault_ok fs h f hne1 hne2 hne3 horig hf
    have hfs2 : fs2 = (atomic_modify fs h f .noFault).2 := by rw [ham]
    rw [hfs2]
    exact ⟨newc, rfl, hfacts.2.1, hfacts.2.2.1, hfacts.2.2.2⟩

/-! ## Claim C8 -/

/-- Claim C8: for every file that contains no chunk with the requested
non-critical tag, remove returns the non-fatal not-found outcome, a
success rather than an error, and leaves the filesystem, hence the
target file's bytes, unchanged. -/
theorem claim_c8 (p tag : String) (fs : FS) (e : List Char) (buf : List Nat)
    (png : Png)
    (hnc : criticalChunks.contains tag = false)
    (hext : pathExtension p.toList = some e)
    (hbuf : fs p = some buf)
    (hparse : Png.parse buf = .ok png)
    (habsent : png.chunkByType tag = none) :
    remove p tag fs = (.ok .notFound, fs) := by
  have hm : tag ∉ criticalChunks := by simpa using hnc
  simp [remove, hm, new_ok (pathExists_of_some hbuf) hext, hbuf, hparse, habsent]

/-- Witness for C8: removing the absent tag zzZz from the minimal
container is the non-fatal not-found outcome. -/
theorem claim_c8_witness :
    remove "img.png" "zzZz" sampleFS = (.ok .notFound, sampleFS) :=
  claim_c8 "img.png" "zzZz" sampleFS "png".toList samplePng.asBytes samplePng
    (by decide) (by decide) (by decide) (by decide) (by decide)

/-! ## Claim C7 -/

/-- Claim C7: for every file already containing exactly one chunk with a
given non-critical tag, a second encode with that same tag returns the
duplicate-tag ValidationError, after which the target's bytes are
unchanged and the file still contains exactly one chunk with that tag. -/
theorem claim_c7 (p tag : String) (msg : List Nat) (fs : FS) (e : List Char)
    (buf : List Nat) (png : Png) (c : Chunk)
    (hnc : criticalChunks.contains tag = false)
    (hshape : tagShapeCheck tag = .proceed)
    (hext : pathExtension p.toList = some e)
    (hbuf : fs p = some buf)
    (hparse : Png.parse buf = .ok png)
    (hdup : png.chunkByType tag = some c)
    (hone : png.chunks.countP (fun x => x.chunkType.bytes == strBytes tag) = 1) :
    (encode p tag msg fs).1 = .error (dupMsg tag) ∧
    (encode p tag msg fs).2 p = some buf ∧
    ∀ buf2, (encode p tag msg fs).2 p = some buf2 →
      ∃ png2, Png.parse buf2 = .ok png2 ∧
        png2.chunks.countP (fun x => x.chunkType.bytes == strBytes tag) = 1 := by
  have hm : tag ∉ criticalChunks := by simpa using hnc
  have hmut : encodeMutate tag msg buf = .error (dupMsg tag) := by
    simp [encodeMutate, hparse, hdup]
  have hred : encode p tag msg fs =
      atomic_modify fs ⟨p, p ++ ".tmp", p ++ ".backup"⟩ (encodeMutate tag msg)
        .noFault := by
    simp [encode, hm, hshape, new_ok (pathExists_of_some hbuf) hext]
  have herr := atomic_modify_noFault_error fs ⟨p, p ++ ".tmp", p ++ ".backup"⟩
    (encodeMutate tag msg) (tmp_ne_target p) (backup_ne_target p)
    (tmp_ne_backup p) hbuf hmut
  refine ⟨by rw [hred]; exact herr.1, by rw [hred]; exact herr.2.1, ?after⟩
  intro buf2 h2
  rw [hred] at h2
  rw [herr.2.1] at h2
  obtain rfl : buf = buf2 := by injection h2
  exact ⟨png, hparse, hone⟩

/-- Witness for C7: a second encode under ruSt on a container already
holding a ruSt chunk fails with the duplicate error and changes
nothing. -/
theorem claim_c7_witness :
    (encode "img.png" "ruSt" [120] sampleFS2).1 = .error (dupMsg "ruSt") ∧
    (encode "img.png" "ruSt" [120] sampleFS2).2 "img.png" =
      some samplePng2.asBytes ∧
    ∀ buf2, (encode "img.png" "ruSt" [120] sampleFS2).2 "img.png" = some buf2 →
      ∃ png2, Png.parse buf2 = .ok png2 ∧
        png2.chunks.countP
          (fun x => x.chunkType.bytes == strBytes "ruSt") = 1 :=
  claim_c7 "img.png" "ruSt" [120] sampleFS2 "png".toList samplePng2.asBytes
    samplePng2 ⟨⟨strBytes "ruSt"⟩, strBytes "hello"⟩
    (by decide) (by decide) (by decide) (by decide) (by decide) (by decide)
    (by decide)

/-! ## Claim C10 -/

/-- Claim C2: for every PNG file whose container ends with an IEND chunk,
encode with a fresh valid tag removes the IEND chunk, appends the new
payload chunk and re-appends IEND, so the committed file still parses as
a valid container with IEND structurally last, and a subsequent decode
of that tag returns exactly the encoded payload. -/
theorem claim_c2 (p tag : String) (msg : List Nat) (fs : FS) (e : List Char)
    (buf : List Nat) (png : Png) (front : List Chunk) (iendc : Chunk)
    (hext : pathExtension p.toList = some e)
    (hbuf : fs p = some buf)
    (hbytes : ∀ x ∈ buf, x < 256)
    (hparse : Png.parse buf = .ok png)
    (hchunks : png.chunks = front ++ [iendc])
    (hiendty : iendc.chunkType.bytes = strBytes "IEND")
    (hnc : criticalChunks.contains tag = false)
    (hfresh : png.chunkByType tag = none)
    (htag4 : tag.toList.length = 4)
    (halpha : (strBytes tag).all isAlphaByte = true)
    (hshape : tagShapeCheck tag = .proceed)
    (hmsg : msg.length < 2 ^ 32)
    (hutf : isValidUtf8 msg = true) :
    (encode p tag msg fs).1 = .ok () ∧
    (∃ newBuf png2,
      (encode p tag msg fs).2 p = some newBuf ∧
      Png.parse newBuf = .ok png2 ∧
      (png2.chunks.getLast?).map (fun c => c.chunkType.bytes) =
        some (strBytes "IEND")) ∧
    decode p tag (encode p tag msg fs).2 = .ok (.message msg) := by
  have hm : tag ∉ criticalChunks := by simpa using hnc
  have htag4s : tag.length = 4 := htag4
  have halphaf : ∀ x ∈ strBytes tag, isAlphaByte x = true := by simpa using halpha
  have hct : ChunkType.fromStr tag = .ok ⟨strBytes tag⟩ := by
    simp [ChunkType.fromStr, htag4, htag4s, halpha, halphaf]
  have hmemi : iendc ∈ png.chunks := by rw [hchunks]; simp
  have hpend : (iendc.chunkType.bytes == strBytes "IEND") = true := by
    rw [hiendty]; simp
  obtain ⟨pr0, hrm0⟩ :=
    removeFirst_of_mem (p := fun c => c.chunkType.bytes == strBytes "IEND")
      hmemi hpend
  obtain ⟨c0, rest0⟩ := pr0
  obtain ⟨hpc0, l1, l2, hdecomp, hrest0, hl1f⟩ := removeFirst_some hrm0
  have hremove : png.removeChunk "IEND" = .ok (c0, ⟨rest0⟩) := by
    simp [Png.removeChunk, hrm0]
  have hc0ty : c0.chunkType.bytes = strBytes "IEND" := by simpa using hpc0
  have hmut : encodeMutate tag msg buf =
      .ok (Png.mk (rest0 ++ [⟨⟨strBytes tag⟩, msg⟩, c0])).asBytes := by
    simp [encodeMutate, hparse, hfresh, hremove, hct, Png.appendChunk, Chunk.new]
  have hwfall := png_parse_wf hbytes hparse
  have hmemc0 : c0 ∈ png.chunks := by rw [hdecomp]; simp
  have hrestmem : ∀ x ∈ rest0, x ∈ png.chunks := by
    intro x hx
    rw [hrest0] at hx
    rw [hdecomp]
    rcases List.mem_append.mp hx with h1 | h2
    · exact List.mem_append.mpr (Or.inl h1)
    · exact List.mem_append.mpr (Or.inr (List.mem_cons_of_mem _ h2))
  have hwfnew : Chunk.WF ⟨⟨strBytes tag⟩, msg⟩ := by
    refine ⟨?len, halpha, hmsg⟩
    simpa [strBytes] using htag4
  have hwf2 : ∀ c ∈ (rest0 ++ [(⟨⟨strBytes tag⟩, msg⟩ : Chunk), c0]),
      Chunk.WF c := by
    intro x hx
    rcases List.mem_append.mp hx with hx1 | hx2
    · exact hwfall x (hrestmem x hx1)
    · rcases List.mem_cons.mp hx2 with rfl | hx3
      · exact hwfnew
      · rw [List.mem_singleton.mp hx3]
        exact hwfall c0 hmemc0
  have hparse2 : Png.parse
      (Png.mk (rest0 ++ [⟨⟨strBytes tag⟩, msg⟩, c0])).asBytes =
      .ok (Png.mk (rest0 ++ [⟨⟨strBytes tag⟩, msg⟩, c0])) :=
    png_parse_asBytes _ hwf2
  have hred : encode p tag msg fs =
      atomic_modify fs ⟨p, p ++ ".tmp", p ++ ".backup"⟩ (encodeMutate tag msg)
        .noFault := by
    simp [encode, hm, hshape, new_ok (pathExists_of_some hbuf) hext]
  have hok := atomic_modify_noFault_ok fs ⟨p, p ++ ".tmp", p ++ ".backup"⟩
    (encodeMutate tag msg) (tmp_ne_target p) (backup_ne_target p)
    (tmp_ne_backup p) hbuf hmut
  have hfs2p : (encode p tag msg fs).2 p =
      some (Png.mk (rest0 ++ [⟨⟨strBytes tag⟩, msg⟩, c0])).asBytes := by
    rw [hred]; exact hok.2.1
  have hfind : (Png.mk (rest0 ++ [⟨⟨strBytes tag⟩, msg⟩, c0])).chunkByType
      tag = some ⟨⟨strBytes tag⟩, msg⟩ := by
    unfold Png.chunkByType
    have hallrest : ∀ x ∈ rest0, (x.chunkType.bytes == strBytes tag) = false := by
      intro x hx
      have := List.find?_eq_none.mp hfresh x (hrestmem x hx)
      simpa using this
    show List.find? _ (rest0 ++ [(⟨⟨strBytes tag⟩, msg⟩ : Chunk), c0]) = _
    rw [find?_append_false hallrest]
    simp
  have hlast : ((rest0 ++ [(⟨⟨strBytes tag⟩, msg⟩ : Chunk), c0]).getLast?) =
      some c0 := by
    rw [show rest0 ++ [(⟨⟨strBytes tag⟩, msg⟩ : Chunk), c0] =
      (rest0 ++ [⟨⟨strBytes tag⟩, msg⟩]) ++ [c0] by simp]
    exact List.getLast?_concat _
  refine ⟨by rw [hred]; exact hok.1, ?exists2, ?dec⟩
  · exact ⟨_, _, hfs2p, hparse2, by simp [hlast, hc0ty]⟩
  · simp [decode, new_ok (pathExists_of_some hfs2p) hext, hfs2p, hparse2,
      hfind, hutf]

/-- Witness for C2: encoding hello under ruSt into the minimal container
and decoding it back returns hello, and the result still ends in IEND. -/
theorem claim_c2_witness :
    (encode "img.png" "ruSt" (strBytes "hello") sampleFS).1 = .ok () ∧
    (∃ newBuf png2,
      (encode "img.png" "ruSt" (strBytes "hello") sampleFS).2 "img.png" =
        some newBuf ∧
      Png.parse newBuf = .ok png2 ∧
      (png2.chunks.getLast?).map (fun c => c.chunkType.bytes) =
        some (strBytes "IEND")) ∧
    decode "img.png" "ruSt"
        (encode "img.png" "ruSt" (strBytes "hello") sampleFS).2 =
      .ok (.message (strBytes "hello")) :=
  claim_c2 "img.png" "ruSt" (strBytes "hello") sampleFS "png".toList
    samplePng.asBytes samplePng [sampleIhdr] sampleIend
    (by decide) (by decide) (by decide) (by decide) (by decide) (by decide)
    (by decide) (by decide) (by decide) (by decide) (by decide) (by decide)
    (by decide)

/-! ## Claim C4 -/

/-- Claim C4: a successful commit does not delete the backup file, so
after a successful encode, restore followed by reading the target
reproduces the pre-encode bytes exactly: encode followed by restore is
the identity on the target's content. -/
theorem claim_c4 (p tag : String) (msg : List Nat) (fs fs2 : FS) (e : List Char)
    (orig : List Nat)
    (hext : pathExtension p.toList = some e)
    (hbuf : fs p = some orig)
    (hnb : strEndsWith p ".backup" = false)
    (henc : encode p tag msg fs = (.ok (), fs2)) :
    (restore_original p fs2).1 = .ok () ∧
    (restore_original p fs2).2 p = some orig := by
  unfold encode at henc
  split at henc
  case isTrue => simp at henc
  case isFalse =>
    split at henc
    · rw [new_ok (pathExists_of_some hbuf) hext] at henc
      dsimp only at henc
      obtain ⟨newc, hf, htar, hback, htmp⟩ := atomic_modify_ok_inv
        (tmp_ne_target p) (backup_ne_target p) (tmp_ne_backup p) hbuf henc
      have hex2 : fs2.pathExists p = true := pathExists_of_some htar
      have hbx : fs2.pathExists (p ++ ".backup") = true := pathExists_of_some hback
      constructor
      · simp [restore_original, hnb, new_ok hex2 hext, hbx, hback]
      · simp [restore_original, hnb, new_ok hex2 hext, hbx, hback, FS.write_self]
    · simp at henc
    · simp at henc

/-- Witness for C4: after encoding hello under ruSt into the minimal
container, restore brings img.png back to its original bytes. -/
theorem claim_c4_witness :
    (restore_original "img.png"
        (encode "img.png" "ruSt" (strBytes "hello") sampleFS).2).1 = .ok () ∧
    (restore_original "img.png"
        (encode "img.png" "ruSt" (strBytes "hello") sampleFS).2).2 "img.png" =
      some samplePng.asBytes := by
  have h1 : (encode "img.png" "ruSt" (strBytes "hello") sampleFS).1 = .ok () := by
    decide
  exact claim_c4 "img.png" "ruSt" (strBytes "hello") sampleFS
    (encode "img.png" "ruSt" (strBytes "hello") sampleFS).2 "png".toList
    samplePng.asBytes (by decide) (by decide) (by decide)
    (by rw [← h1])

end HiddenPixelVault
